import Mathlib

/-!
Shallow embedding of the clawdbot-approvals lifecycle engine
(source: src/index.ts of the clawdbot-approvals plugin).

Modelling conventions:
- Timestamps are Nat milliseconds since the epoch (the source stores ISO
  strings and compares them through `new Date(...)`; comparisons on the
  underlying millisecond value are the same order).
- The record store (one JSON file per approval under a directory, the
  filename derived from the id) is an association list from filename key
  to file content; a file whose content fails to parse is `Rec.corrupt`
  and is treated as absent on load and skipped on list, as in the source.
- The audit log file (append-only JSONL) is a list of entries; appending
  is list append at the end.
- `Math.floor(Math.random() * chars.length)` is modelled by an arbitrary
  stream `r : Nat → Nat` reduced mod 32 (= chars.length), which produces
  exactly the indices the source can produce.
- `execSync` is abstracted by a parameter `run : String → Except String
  String`: `Except.ok out` is a successful command with trimmed output
  `out`, `Except.error msg` a failing command whose captured stderr (or
  failure message) is `msg`.
- Thrown `Error`s become an `Err` inductive; `Err.message` reproduces the
  exact message strings the source builds.
-/
inductive Status
  | pending
  | approved
  | denied
  | executed
  | expired
deriving DecidableEq, Repr

def statusName : Status → String
  | Status.pending => "pending"
  | Status.approved => "approved"
  | Status.denied => "denied"
  | Status.executed => "executed"
  | Status.expired => "expired"

inductive Event
  | proposed
  | approved
  | denied
  | executed
  | expired
  | cleaned
deriving DecidableEq, Repr

structure Approval where
  id : String
  createdAt : Nat
  expiresAt : Nat
  summary : String
  details : Option String := none
  commands : List String
  env : List (String × String) := []
  channel : Option String := none
  chatId : Option String := none
  proposedBy : Option String := none
  status : Status
  approvedAt : Option Nat := none
  approvedBy : Option String := none
  deniedAt : Option Nat := none
  deniedBy : Option String := none
  executedAt : Option Nat := none
  result : Option String := none
  error : Option String := none
deriving DecidableEq, Repr

/-- The `details` payloads actually written by the source. -/
inductive AuditDetails
  | proposed (commands : List String) (expiresAt : Nat)
  | executed (commandCount : Nat) (hasErrors : Bool)
  | cleaned (count : Nat) (olderThanDays : Nat)
deriving DecidableEq, Repr

structure AuditLogEntry where
  ts : Nat
  event : Event
  id : String
  summary : String
  actor : Option String := none
  channel : Option String := none
  details : Option AuditDetails := none
deriving DecidableEq, Repr

/-- One file in the approvals directory: parseable record or corrupt JSON. -/
inductive Rec
  | ok (a : Approval)
  | corrupt
deriving DecidableEq, Repr

/-- The approvals directory: filename key (an id) paired with content. -/
abbrev Store := List (String × Rec)

/-- Combined persisted state: record files plus the audit log file. -/
structure State where
  store : Store
  audit : List AuditLogEntry
deriving DecidableEq, Repr

/-- Filesystem lookup of `id`.json in the directory (first match). -/
def lookupS : Store → String → Option Rec
  | [], _ => none
  | p :: rest, k => if p.1 = k then some p.2 else lookupS rest k

/-- `id.toUpperCase()` on the ASCII ids the engine uses. -/
def upperId (s : String) : String := String.mk (s.data.map Char.toUpper)

/-- loadApproval: missing file or unparseable JSON gives null. -/
def loadApproval (s : Store) (id : String) : Option Approval :=
  match lookupS s id with
  | some (Rec.ok a) => some a
  | _ => none

/-- saveApproval: writeFileSync to `a.id`.json, overwriting any prior file. -/
def saveApproval (s : Store) (a : Approval) : Store :=
  if (lookupS s a.id).isSome then
    s.map (fun p => if p.1 = a.id then (a.id, Rec.ok a) else p)
  else
    s ++ [(a.id, Rec.ok a)]

/-- deleteApproval: unlink the file if present, no-op otherwise. -/
def deleteApproval (s : Store) (id : String) : Store :=
  s.filter (fun p => p.1 ≠ id)

def DEFAULT_EXPIRY_MS : Nat := 2 * 60 * 60 * 1000

/-- The id alphabet: no I/O/0/1 for clarity (32 characters). -/
def idChars : List Char := "ABCDEFGHJKLMNPQRSTUVWXYZ23456789".data

/-- generateId: four draws of chars[Math.floor(Math.random()*32)]. -/
def generateId (r : Nat → Nat) : String :=
  String.mk ((List.range 4).map (fun i => idChars.getD (r i % 32) 'A'))

/-- The in-loop expiry rewrite performed by listApprovals. -/
def lazyExpire (now : Nat) (a : Approval) : Approval :=
  if a.status = Status.pending ∧ a.expiresAt < now then
    { a with status := Status.expired }
  else a

def lazyExpireRec (now : Nat) : Rec → Rec
  | Rec.ok a => Rec.ok (lazyExpire now a)
  | Rec.corrupt => Rec.corrupt

/-- Comparator of `approvals.sort((a, b) => b.createdAt - a.createdAt)`. -/
def createdDesc (a b : Approval) : Bool := decide (b.createdAt ≤ a.createdAt)

/--
listApprovals over the directory: for each parseable file, if it is
pending and past expiry, rewrite it to expired and save; include it when
includeAll or still pending; skip corrupt files; finally sort by
createdAt descending. Returns the result list and the directory after
the in-loop saves.
-/
def listApprovals (s : Store) (now : Nat) (includeAll : Bool) :
    List Approval × Store :=
  let s' := s.map (fun p => (p.1, lazyExpireRec now p.2))
  let res := s'.filterMap (fun p =>
    match p.2 with
    | Rec.ok a => if includeAll || a.status = Status.pending then some a else none
    | Rec.corrupt => none)
  (res.mergeSort createdDesc, s')

/-- listApprovals as an operation on the whole persisted state: it writes
record files but never touches the audit log file. -/
def listState (s : State) (now : Nat) (includeAll : Bool) :
    List Approval × State :=
  let (res, st) := listApprovals s.store now includeAll
  (res, { s with store := st })

structure ProposeOptions where
  details : Option String := none
  expiryMs : Option Nat := none
  env : List (String × String) := []
  channel : Option String := none
  chatId : Option String := none
  proposedBy : Option String := none

/-- propose: build the record, save it, append a `proposed` audit entry. -/
def propose (s : State) (now : Nat) (r : Nat → Nat) (summary : String)
    (commands : List String) (opts : ProposeOptions) : Approval × State :=
  let expiryMs := opts.expiryMs.getD DEFAULT_EXPIRY_MS
  let a : Approval := {
    id := generateId r
    createdAt := now
    expiresAt := now + expiryMs
    summary := summary
    details := opts.details
    commands := commands
    env := opts.env
    channel := opts.channel
    chatId := opts.chatId
    proposedBy := opts.proposedBy
    status := Status.pending }
  let entry : AuditLogEntry := {
    ts := a.createdAt
    event := Event.proposed
    id := a.id
    summary := a.summary
    actor := opts.proposedBy
    channel := opts.channel
    details := some (AuditDetails.proposed a.commands a.expiresAt) }
  (a, { store := saveApproval s.store a, audit := s.audit ++ [entry] })

inductive Err
  | notFound (id : String)
  | notPending (id : String) (current : Status)
  | notApproved (id : String) (current : Status)
  | expired (id : String)
deriving DecidableEq, Repr

/-- The exact thrown message strings of the source. -/
def Err.message : Err → String
  | Err.notFound id => "Approval " ++ id ++ " not found"
  | Err.notPending id st => "Approval " ++ id ++ " is " ++ statusName st ++ ", not pending"
  | Err.notApproved id st => "Approval " ++ id ++ " is " ++ statusName st ++ ", must be approved first"
  | Err.expired id => "Approval " ++ id ++ " has expired"

/-- The spec's error-kind classification of the thrown errors. -/
def Err.isInvalidTransition : Err → Bool
  | Err.notPending _ _ => true
  | Err.notApproved _ _ => true
  | _ => false

/-- approve(id, approvedBy). A thrown error is `Except.error`; the state
component is the persisted state when the function returns or throws. -/
def approve (s : State) (now : Nat) (id : String) (approvedBy : Option String) :
    Except Err Approval × State :=
  match loadApproval s.store (upperId id) with
  | none => (Except.error (Err.notFound id), s)
  | some a =>
    if a.status ≠ Status.pending then
      (Except.error (Err.notPending id a.status), s)
    else if a.expiresAt < now then
      let a' := { a with status := Status.expired }
      let entry : AuditLogEntry := {
        ts := now
        event := Event.expired
        id := a'.id
        summary := a'.summary }
      (Except.error (Err.expired id),
        { store := saveApproval s.store a', audit := s.audit ++ [entry] })
    else
      let a' := { a with
        status := Status.approved
        approvedAt := some now
        approvedBy := approvedBy }
      let entry : AuditLogEntry := {
        ts := now
        event := Event.approved
        id := a'.id
        summary := a'.summary
        actor := approvedBy
        channel := a'.channel }
      (Except.ok a',
        { store := saveApproval s.store a', audit := s.audit ++ [entry] })

/-- deny(id, deniedBy): like approve but with no expiry check. -/
def deny (s : State) (now : Nat) (id : String) (deniedBy : Option String) :
    Except Err Approval × State :=
  match loadApproval s.store (upperId id) with
  | none => (Except.error (Err.notFound id), s)
  | some a =>
    if a.status ≠ Status.pending then
      (Except.error (Err.notPending id a.status), s)
    else
      let a' := { a with
        status := Status.denied
        deniedAt := some now
        deniedBy := deniedBy }
      let entry : AuditLogEntry := {
        ts := now
        event := Event.denied
        id := a'.id
        summary := a'.summary
        actor := deniedBy
        channel := a'.channel }
      (Except.ok a',
        { store := saveApproval s.store a', audit := s.audit ++ [entry] })

/-- execute(id): run every command in order, splitting outcomes into
results and errors; the status is then set to `executed` unconditionally
(the source has no other post-execution status), `error` is set only when
some command failed, and one `executed` audit entry is appended. -/
def execute (run : String → Except String String) (s : State) (now : Nat)
    (id : String) : Except Err Approval × State :=
  match loadApproval s.store (upperId id) with
  | none => (Except.error (Err.notFound id), s)
  | some a =>
    if a.status ≠ Status.approved then
      (Except.error (Err.notApproved id a.status), s)
    else
      let outcomes := a.commands.map (fun c => (c, run c))
      let results := outcomes.filterMap (fun p =>
        match p.2 with
        | Except.ok out => some ("$ " ++ p.1 ++ "\n" ++ out)
        | Except.error _ => none)
      let errors := outcomes.filterMap (fun p =>
        match p.2 with
        | Except.error msg => some ("$ " ++ p.1 ++ "\nERROR: " ++ msg)
        | Except.ok _ => none)
      let a' := { a with
        status := Status.executed
        executedAt := some now
        result := some (String.intercalate "\n\n" results)
        error := if errors.length > 0
          then some (String.intercalate "\n\n" errors) else a.error }
      let entry : AuditLogEntry := {
        ts := now
        event := Event.executed
        id := a'.id
        summary := a'.summary
        actor := a'.approvedBy
        channel := a'.channel
        details := some (AuditDetails.executed a'.commands.length
          (decide (errors.length > 0))) }
      (Except.ok a',
        { store := saveApproval s.store a', audit := s.audit ++ [entry] })

/-- approveAndExecute: approve, and only on success execute. -/
def approveAndExecute (run : String → Except String String) (s : State)
    (now : Nat) (id : String) (actor : Option String) :
    Except Err Approval × State :=
  match approve s now id actor with
  | (Except.error e, s') => (Except.error e, s')
  | (Except.ok a, s') => execute run s' now a.id

instance {e a : Type} [DecidableEq e] [DecidableEq a] :
    DecidableEq (Except e a) := fun x y =>
  match x, y with
  | Except.ok v, Except.ok w => decidable_of_iff (v = w) (by simp)
  | Except.error v, Except.error w => decidable_of_iff (v = w) (by simp)
  | Except.ok _, Except.error _ => isFalse (by simp)
  | Except.error _, Except.ok _ => isFalse (by simp)

inductive BatchIds
  | all
  | explicit (ids : List String)

/-- The per-id loop of batchApprove: try approveAndExecute, collect the
success or catch the failure, and continue with the rest either way. -/
def batchLoop (run : String → Except String String) (now : Nat)
    (actor : Option String) :
    List String → State → List Approval × List (String × String) × State
  | [], s => ([], [], s)
  | id :: rest, s =>
    match approveAndExecute run s now id actor with
    | (Except.ok a, s') =>
      let (succ, errs, s'') := batchLoop run now actor rest s'
      (a :: succ, errs, s'')
    | (Except.error e, s') =>
      let (succ, errs, s'') := batchLoop run now actor rest s'
      (succ, (id, e.message) :: errs, s'')

/-- batchApprove(ids | "all", actor): "all" snapshots the pending ids via
listApprovals(false) at call time, then each id is processed independently. -/
def batchApprove (run : String → Except String String) (s : State) (now : Nat)
    (ids : BatchIds) (actor : Option String) :
    List Approval × List (String × String) × State :=
  match ids with
  | BatchIds.all =>
    let (l, s') := listState s now false
    batchLoop run now actor (l.map (fun a => a.id)) s'
  | BatchIds.explicit l => batchLoop run now actor l s

def dayMs : Nat := 24 * 60 * 60 * 1000

/-- The records the clean loop removes: non-pending (after the scan's
lazy expiry) and created before the cutoff. -/
def cleanTargets (store : Store) (now cutoff : Nat) : List Approval :=
  (listApprovals store now true).1.filter
    (fun a => a.status ≠ Status.pending ∧ a.createdAt < cutoff)

/-- The single `cleaned` audit entry: all removed ids and the count. -/
def cleanedEntry (ids : List String) (now d : Nat) : AuditLogEntry :=
  { ts := now, event := Event.cleaned, id := String.intercalate "," ids,
    summary := "Cleaned " ++ toString ids.length ++ " old approval(s)",
    details := some (AuditDetails.cleaned ids.length d) }

/-- cleanExpired(olderThanDays): scan all records (with the scan's lazy
expiry), delete every non-pending record created before the cutoff,
append one `cleaned` audit entry when at least one was removed. -/
def cleanExpired (s : State) (now : Nat) (olderThanDays : Nat) :
    Nat × State :=
  let cutoff := now - olderThanDays * dayMs
  let cleanedIds := (cleanTargets s.store now cutoff).map (fun a => a.id)
  let store2 := cleanedIds.foldl (fun st id => deleteApproval st id)
    (listApprovals s.store now true).2
  if cleanedIds.length > 0 then
    (cleanedIds.length,
      { store := store2
        audit := s.audit ++ [cleanedEntry cleanedIds now olderThanDays] })
  else
    (cleanedIds.length, { store := store2, audit := s.audit })

/-- One line of the audit JSONL file: parseable entry or corrupt JSON. -/
inductive LogLine
  | ok (e : AuditLogEntry)
  | corrupt
deriving DecidableEq, Repr

/-- `entries.slice(-limit)` on a list (JS slice(-0) is slice(0)). -/
def sliceLast (es : List AuditLogEntry) (limit : Nat) : List AuditLogEntry :=
  if limit = 0 then es else es.drop (es.length - limit)

/-- `lines.map(line => JSON.parse(line))`: the first unparseable line
throws out of the whole map. -/
def parseAll : List LogLine → Option (List AuditLogEntry)
  | [] => some []
  | LogLine.ok e :: rest => (parseAll rest).map (fun es => e :: es)
  | LogLine.corrupt :: _ => none

/-- readAuditLog(limit): parse every line; one parse failure throws out of
the map and the catch returns the empty list. -/
def readAuditLog (lines : List LogLine) (limit : Nat) : List AuditLogEntry :=
  match parseAll lines with
  | none => []
  | some es => (sliceLast es limit).reverse

/-- A file entry whose parseable content carries the id its filename was
derived from (corrupt files carry no id). -/
def keyMatches : String × Rec → Bool
  | (k, Rec.ok a) => k = a.id
  | (_, Rec.corrupt) => true

/-- Store well-formedness the filesystem guarantees: each parseable file's
content carries the id its filename was derived from, and filenames are
distinct. -/
def WFStore (s : Store) : Prop :=
  (∀ p ∈ s, keyMatches p = true) ∧ (s.map Prod.fst).Nodup

instance (s : Store) : Decidable (WFStore s) :=
  inferInstanceAs
    (Decidable ((∀ p ∈ s, keyMatches p = true) ∧ (s.map Prod.fst).Nodup))

/-! ### Branch characterizations of the lifecycle operations -/
/-- The record approve writes on success. -/
def approvedRec (a : Approval) (now : Nat) (ab : Option String) : Approval :=
  { a with status := Status.approved, approvedAt := some now, approvedBy := ab }

def approvedEntry (a : Approval) (now : Nat) (ab : Option String) : AuditLogEntry :=
  { ts := now, event := Event.approved, id := a.id, summary := a.summary,
    actor := ab, channel := a.channel }

def expiredEntry (a : Approval) (now : Nat) : AuditLogEntry :=
  { ts := now, event := Event.expired, id := a.id, summary := a.summary }

/-- The record deny writes on success. -/
def deniedRec (a : Approval) (now : Nat) (db : Option String) : Approval :=
  { a with status := Status.denied, deniedAt := some now, deniedBy := db }

def deniedEntry (a : Approval) (now : Nat) (db : Option String) : AuditLogEntry :=
  { ts := now, event := Event.denied, id := a.id, summary := a.summary,
    actor := db, channel := a.channel }

/-- The per-command splitting of execute. -/
def execResults (run : String → Except String String) (cs : List String) :
    List String :=
  (cs.map (fun c => (c, run c))).filterMap (fun p =>
    match p.2 with
    | Except.ok out => some ("$ " ++ p.1 ++ "\n" ++ out)
    | Except.error _ => none)

def execErrors (run : String → Except String String) (cs : List String) :
    List String :=
  (cs.map (fun c => (c, run c))).filterMap (fun p =>
    match p.2 with
    | Except.error msg => some ("$ " ++ p.1 ++ "\nERROR: " ++ msg)
    | Except.ok _ => none)

/-- The record execute writes: status is executed whatever the outcomes. -/
def executedRec (run : String → Except String String) (a : Approval)
    (now : Nat) : Approval :=
  { a with
    status := Status.executed
    executedAt := some now
    result := some (String.intercalate "\n\n" (execResults run a.commands))
    error := if (execErrors run a.commands).length > 0
      then some (String.intercalate "\n\n" (execErrors run a.commands))
      else a.error }

def executedEntry (run : String → Except String String) (a : Approval)
    (now : Nat) : AuditLogEntry :=
  { ts := now, event := Event.executed, id := a.id, summary := a.summary,
    actor := a.approvedBy, channel := a.channel,
    details := some (AuditDetails.executed a.commands.length
      (decide ((execErrors run a.commands).length > 0))) }

/-- A concrete well-formed audit entry used by witnesses. -/
def sampleEntry : AuditLogEntry :=
  { ts := 1, event := Event.proposed, id := "AAAA", summary := "t" }

/-- An approved record whose single command fails. -/
def c1rec : Approval :=
  { id := "AAAA", createdAt := 0, expiresAt := 100, summary := "t",
    commands := ["exit 1"], status := Status.approved }

def c1state : State := { store := [("AAAA", Rec.ok c1rec)], audit := [] }

/-- A runner under which every command fails with exit-status evidence. -/
def c1run : String → Except String String :=
  fun _ => Except.error "Command failed: exit status 1"

/-- A pending record whose expiry instant is exactly the current time. -/
def c2rec : Approval :=
  { id := "AAAA", createdAt := 0, expiresAt := 100, summary := "t",
    commands := ["echo hi"], status := Status.pending }

def c2state : State := { store := [("AAAA", Rec.ok c2rec)], audit := [] }

/-- What approve at now = 100 actually persists for c2rec. -/
def c2approved : Approval :=
  { c2rec with status := Status.approved, approvedAt := some 100, approvedBy := some "u" }

/-- A stored record whose id the next propose call will collide with. -/
def c3old : Approval :=
  { id := "AAAA", createdAt := 0, expiresAt := 10, summary := "old",
    commands := ["echo 1"], status := Status.executed }

def c3state : State := { store := [("AAAA", Rec.ok c3old)], audit := [] }

/-- A stale pending record: pending on disk, expiresAt long past. -/
def c4rec : Approval :=
  { id := "AAAA", createdAt := 0, expiresAt := 10, summary := "t",
    commands := ["echo"], status := Status.pending }

def c4state : State := { store := [("AAAA", Rec.ok c4rec)], audit := [] }

/-- A denied record, for exercising invalid transitions. -/
def c8rec : Approval :=
  { id := "AAAA", createdAt := 0, expiresAt := 100, summary := "t",
    commands := ["echo"], status := Status.denied }

def c8state : State := { store := [("AAAA", Rec.ok c8rec)], audit := [] }

/-- A pending record with no commands, for exercising batch. -/
def c7rec : Approval :=
  { id := "CCCC", createdAt := 0, expiresAt := 100, summary := "t",
    commands := [], status := Status.pending }

def c7state : State := { store := [("CCCC", Rec.ok c7rec)], audit := [] }

/-- A genuinely pending (unexpired) but very old record. -/
def c6rec : Approval :=
  { id := "AAAA", createdAt := 0, expiresAt := 999999999999, summary := "t",
    commands := ["echo"], status := Status.pending }

def c6state : State := { store := [("AAAA", Rec.ok c6rec)], audit := [] }

/-! ### Lemmas and claim theorems -/

theorem WFStore.key_eq {s : Store} (wf : WFStore s) {k : String}
    {a : Approval} (h : (k, Rec.ok a) ∈ s) : k = a.id := by
  have := wf.1 _ h
  simpa [keyMatches] using this

/-! ### Store lemmas -/
theorem lookupS_mem {s : Store} {k : String} {r : Rec}
    (h : lookupS s k = some r) : (k, r) ∈ s := by
  induction s with
  | nil => simp [lookupS] at h
  | cons p rest ih =>
    obtain ⟨k', r'⟩ := p
    by_cases hk : k' = k
    · subst hk
      simp [lookupS] at h
      subst h
      exact List.mem_cons_self _ _
    · simp [lookupS, hk] at h
      exact List.mem_cons_of_mem _ (ih h)

theorem lookupS_append_none {s t : Store} {k : String}
    (h : lookupS s k = none) : lookupS (s ++ t) k = lookupS t k := by
  induction s with
  | nil => simp
  | cons p rest ih =>
    by_cases hk : p.1 = k
    · simp [lookupS, hk] at h
    · simp [lookupS, hk] at h ⊢
      exact ih h

theorem lookupS_append_some {s t : Store} {k : String} {r : Rec}
    (h : lookupS s k = some r) : lookupS (s ++ t) k = some r := by
  induction s with
  | nil => simp [lookupS] at h
  | cons p rest ih =>
    by_cases hk : p.1 = k
    · simp [lookupS, hk] at h ⊢
      exact h
    · simp [lookupS, hk] at h ⊢
      exact ih h

theorem lookupS_overwriteMap (s : Store) (x : String) (v : Rec) :
    lookupS (s.map (fun p => if p.1 = x then (x, v) else p)) x
      = (lookupS s x).map (fun _ => v) := by
  induction s with
  | nil => simp [lookupS]
  | cons p rest ih =>
    by_cases hk : p.1 = x
    · simp [lookupS, hk]
    · simp [lookupS, hk]
      exact ih

theorem lookupS_overwriteMap_other (s : Store) (x k : String) (v : Rec)
    (hk : k ≠ x) :
    lookupS (s.map (fun p => if p.1 = x then (x, v) else p)) k
      = lookupS s k := by
  have hxk : ¬ (x = k) := fun hh => hk hh.symm
  induction s with
  | nil => simp [lookupS]
  | cons p rest ih =>
    obtain ⟨k', r'⟩ := p
    by_cases hp : k' = x
    · subst hp
      simp [lookupS, hxk]
      exact ih
    · by_cases hk2 : k' = k
      · subst hk2
        simp [lookupS, hp]
      · simp [lookupS, hp, hk2]
        exact ih

theorem lookupS_save_self (s : Store) (a : Approval) :
    lookupS (saveApproval s a) a.id = some (Rec.ok a) := by
  unfold saveApproval
  by_cases h : (lookupS s a.id).isSome
  · rw [if_pos h]
    rw [lookupS_overwriteMap]
    rcases Option.isSome_iff_exists.mp h with ⟨r, hr⟩
    rw [hr]
    rfl
  · rw [if_neg h]
    have hn : lookupS s a.id = none := Option.not_isSome_iff_eq_none.mp h
    rw [lookupS_append_none hn]
    simp [lookupS]

theorem loadApproval_save_self (s : Store) (a : Approval) :
    loadApproval (saveApproval s a) a.id = some a := by
  unfold loadApproval
  rw [lookupS_save_self]

theorem lookupS_save_other (s : Store) (a : Approval) (k : String)
    (hk : k ≠ a.id) : lookupS (saveApproval s a) k = lookupS s k := by
  unfold saveApproval
  by_cases h : (lookupS s a.id).isSome
  · rw [if_pos h]
    exact lookupS_overwriteMap_other s a.id k (Rec.ok a) hk
  · rw [if_neg h]
    have hak : ¬ (a.id = k) := fun hh => hk hh.symm
    cases hsk : lookupS s k with
    | none =>
      rw [lookupS_append_none hsk]
      simp [lookupS, hak]
    | some r =>
      rw [lookupS_append_some hsk]

theorem lookupS_delete_self (s : Store) (id : String) :
    lookupS (deleteApproval s id) id = none := by
  induction s with
  | nil => simp [deleteApproval, lookupS]
  | cons p rest ih =>
    obtain ⟨k', r'⟩ := p
    by_cases hp : k' = id
    · subst hp
      simpa [deleteApproval, lookupS] using ih
    · simpa [deleteApproval, lookupS, hp] using ih

theorem lookupS_delete_other (s : Store) (id k : String) (hk : k ≠ id) :
    lookupS (deleteApproval s id) k = lookupS s k := by
  induction s with
  | nil => simp [deleteApproval, lookupS]
  | cons p rest ih =>
    obtain ⟨k', r'⟩ := p
    by_cases hp : k' = id
    · subst hp
      have : ¬ (k' = k) := fun hh => hk hh.symm
      simp [deleteApproval, lookupS, this]
      simpa [deleteApproval] using ih
    · by_cases hk2 : k' = k
      · subst hk2
        simp [deleteApproval, lookupS, hp]
      · simp [deleteApproval, lookupS, hp, hk2]
        simpa [deleteApproval] using ih

theorem lookupS_foldl_delete_none (ids : List String) (st : Store) (k : String)
    (h : lookupS st k = none) :
    lookupS (ids.foldl (fun s id => deleteApproval s id) st) k = none := by
  induction ids generalizing st with
  | nil => simpa using h
  | cons i rest ih =>
    simp only [List.foldl_cons]
    apply ih
    by_cases hk : k = i
    · subst hk
      exact lookupS_delete_self st k
    · rw [lookupS_delete_other st i k hk]
      exact h

theorem lookupS_foldl_delete_mem (ids : List String) (st : Store) (k : String)
    (h : k ∈ ids) :
    lookupS (ids.foldl (fun s id => deleteApproval s id) st) k = none := by
  induction ids generalizing st with
  | nil => simp at h
  | cons i rest ih =>
    simp only [List.foldl_cons]
    rcases List.mem_cons.mp h with h1 | h2
    · subst h1
      exact lookupS_foldl_delete_none rest _ k (lookupS_delete_self st k)
    · exact ih _ h2

theorem lookupS_foldl_delete_not_mem (ids : List String) (st : Store)
    (k : String) (h : k ∉ ids) :
    lookupS (ids.foldl (fun s id => deleteApproval s id) st) k = lookupS st k := by
  induction ids generalizing st with
  | nil => simp
  | cons i rest ih =>
    simp only [List.foldl_cons]
    have hne : k ≠ i := fun hh => h (hh ▸ List.mem_cons_self i rest)
    have hrest : k ∉ rest := fun hh => h (List.mem_cons_of_mem _ hh)
    rw [ih _ hrest, lookupS_delete_other st i k hne]

theorem lookupS_map_expire (s : Store) (now : Nat) (k : String) :
    lookupS (s.map (fun p => (p.1, lazyExpireRec now p.2))) k
      = (lookupS s k).map (lazyExpireRec now) := by
  induction s with
  | nil => simp [lookupS]
  | cons p rest ih =>
    obtain ⟨k', r'⟩ := p
    by_cases hp : k' = k
    · subst hp
      simp [lookupS]
    · simp [lookupS, hp]
      exact ih

theorem loadApproval_key_eq_id {s : Store} {k : String} {a : Approval}
    (wf : WFStore s) (h : loadApproval s k = some a) : k = a.id := by
  unfold loadApproval at h
  cases hl : lookupS s k with
  | none => rw [hl] at h; simp at h
  | some r =>
    rw [hl] at h
    cases r with
    | corrupt => simp at h
    | ok b =>
      simp at h
      have hm := lookupS_mem hl
      have hb : k = b.id := wf.key_eq hm
      rw [hb, h]

/-- With distinct filenames, two entries sharing a filename coincide. -/
theorem entry_eq_of_nodup {s : Store} (hnd : (s.map Prod.fst).Nodup)
    {k : String} {r1 r2 : Rec} (h1 : (k, r1) ∈ s) (h2 : (k, r2) ∈ s) :
    r1 = r2 := by
  induction s with
  | nil => simp at h1
  | cons p rest ih =>
    rw [List.map_cons, List.nodup_cons] at hnd
    rcases List.mem_cons.mp h1 with e1 | m1
    · rcases List.mem_cons.mp h2 with e2 | m2
      · have : (k, r1) = (k, r2) := e1.trans e2.symm
        injection this
      · exfalso
        apply hnd.1
        have hk : p.1 = k := by rw [← e1]
        rw [hk]
        exact List.mem_map.mpr ⟨(k, r2), m2, rfl⟩
    · rcases List.mem_cons.mp h2 with e2 | m2
      · exfalso
        apply hnd.1
        have hk : p.1 = k := by rw [← e2]
        rw [hk]
        exact List.mem_map.mpr ⟨(k, r1), m1, rfl⟩
      · exact ih hnd.2 m1 m2

/-- In a well-formed store, two parseable entries carrying the same record
id are the same entry. -/
theorem WFStore_entry_unique {s : Store} (wf : WFStore s)
    {k1 k2 : String} {a b : Approval}
    (h1 : (k1, Rec.ok a) ∈ s) (h2 : (k2, Rec.ok b) ∈ s)
    (hid : a.id = b.id) : a = b := by
  have hk1 : k1 = a.id := wf.key_eq h1
  have hk2 : k2 = b.id := wf.key_eq h2
  have hkk : k1 = k2 := by rw [hk1, hk2, hid]
  subst hkk
  have := entry_eq_of_nodup wf.2 h1 h2
  injection this

theorem lazyExpire_id (now : Nat) (a : Approval) :
    (lazyExpire now a).id = a.id := by
  unfold lazyExpire
  split <;> rfl

theorem lazyExpire_createdAt (now : Nat) (a : Approval) :
    (lazyExpire now a).createdAt = a.createdAt := by
  unfold lazyExpire
  split <;> rfl

theorem WFStore_map_expire {s : Store} (wf : WFStore s) (now : Nat) :
    WFStore (s.map (fun p => (p.1, lazyExpireRec now p.2))) := by
  constructor
  · intro p hp
    rcases List.mem_map.mp hp with ⟨q, hq, hqe⟩
    subst hqe
    obtain ⟨qk, qr⟩ := q
    cases qr with
    | corrupt => simp [keyMatches, lazyExpireRec]
    | ok b =>
      have hqm : keyMatches (qk, Rec.ok b) = true := wf.1 _ hq
      simp [keyMatches] at hqm
      simp [keyMatches, lazyExpireRec, lazyExpire_id, hqm]
  · have h : (s.map (fun p => (p.1, lazyExpireRec now p.2))).map Prod.fst
        = s.map Prod.fst := by
      rw [List.map_map]
      rfl
    rw [h]
    exact wf.2

theorem approve_not_found (s : State) (now : Nat) (id : String)
    (ab : Option String) (h : loadApproval s.store (upperId id) = none) :
    approve s now id ab = (Except.error (Err.notFound id), s) := by
  unfold approve
  rw [h]

theorem approve_not_pending (s : State) (now : Nat) (id : String)
    (ab : Option String) (a : Approval)
    (h : loadApproval s.store (upperId id) = some a)
    (hs : a.status ≠ Status.pending) :
    approve s now id ab = (Except.error (Err.notPending id a.status), s) := by
  unfold approve
  rw [h]
  simp [hs]

theorem approve_expired (s : State) (now : Nat) (id : String)
    (ab : Option String) (a : Approval)
    (h : loadApproval s.store (upperId id) = some a)
    (hs : a.status = Status.pending) (he : a.expiresAt < now) :
    approve s now id ab = (Except.error (Err.expired id),
      { store := saveApproval s.store { a with status := Status.expired },
        audit := s.audit ++ [expiredEntry a now] }) := by
  unfold approve
  rw [h]
  simp [hs, he, expiredEntry]

theorem approve_ok (s : State) (now : Nat) (id : String)
    (ab : Option String) (a : Approval)
    (h : loadApproval s.store (upperId id) = some a)
    (hs : a.status = Status.pending) (he : ¬ a.expiresAt < now) :
    approve s now id ab = (Except.ok (approvedRec a now ab),
      { store := saveApproval s.store (approvedRec a now ab),
        audit := s.audit ++ [approvedEntry a now ab] }) := by
  unfold approve
  rw [h]
  simp [hs, he, approvedRec, approvedEntry]

theorem deny_not_found (s : State) (now : Nat) (id : String)
    (db : Option String) (h : loadApproval s.store (upperId id) = none) :
    deny s now id db = (Except.error (Err.notFound id), s) := by
  unfold deny
  rw [h]

theorem deny_not_pending (s : State) (now : Nat) (id : String)
    (db : Option String) (a : Approval)
    (h : loadApproval s.store (upperId id) = some a)
    (hs : a.status ≠ Status.pending) :
    deny s now id db = (Except.error (Err.notPending id a.status), s) := by
  unfold deny
  rw [h]
  simp [hs]

theorem deny_ok (s : State) (now : Nat) (id : String)
    (db : Option String) (a : Approval)
    (h : loadApproval s.store (upperId id) = some a)
    (hs : a.status = Status.pending) :
    deny s now id db = (Except.ok (deniedRec a now db),
      { store := saveApproval s.store (deniedRec a now db),
        audit := s.audit ++ [deniedEntry a now db] }) := by
  unfold deny
  rw [h]
  simp [hs, deniedRec, deniedEntry]

theorem execute_not_found (run : String → Except String String) (s : State)
    (now : Nat) (id : String)
    (h : loadApproval s.store (upperId id) = none) :
    execute run s now id = (Except.error (Err.notFound id), s) := by
  unfold execute
  rw [h]

theorem execute_not_approved (run : String → Except String String) (s : State)
    (now : Nat) (id : String) (a : Approval)
    (h : loadApproval s.store (upperId id) = some a)
    (hs : a.status ≠ Status.approved) :
    execute run s now id = (Except.error (Err.notApproved id a.status), s) := by
  unfold execute
  rw [h]
  simp [hs]

theorem execute_ok (run : String → Except String String) (s : State)
    (now : Nat) (id : String) (a : Approval)
    (h : loadApproval s.store (upperId id) = some a)
    (hs : a.status = Status.approved) :
    execute run s now id = (Except.ok (executedRec run a now),
      { store := saveApproval s.store (executedRec run a now),
        audit := s.audit ++ [executedEntry run a now] }) := by
  unfold execute
  rw [h]
  simp [hs, executedRec, executedEntry, execResults, execErrors]

theorem getD_mem_of_lt {l : List Char} {n : Nat} (h : n < l.length) (d : Char) :
    l.getD n d ∈ l := by
  rw [List.getD_eq_getElem l d h]
  exact List.getElem_mem h

theorem generateId_length (r : Nat → Nat) : (generateId r).length = 4 := by
  simp [generateId, String.length]

theorem generateId_chars (r : Nat → Nat) :
    ∀ c ∈ (generateId r).data, c ∈ idChars := by
  intro c hc
  simp only [generateId] at hc
  rcases List.mem_map.mp hc with ⟨i, _, hi⟩
  rw [← hi]
  have h32 : r i % 32 < idChars.length := by
    have : r i % 32 < 32 := Nat.mod_lt _ (by norm_num)
    simpa [idChars] using this
  exact getD_mem_of_lt h32 'A'

/-- C9: immediately after propose, the returned and persisted record is
pending, its id is 4 characters long over the unambiguous 32-character
alphabet, createdAt is the call time, and expiresAt = createdAt + ttl
where the ttl is the given expiryMs or the 2-hour default. -/
theorem propose_initial_record (s : State) (now : Nat) (r : Nat → Nat)
    (summary : String) (commands : List String) (opts : ProposeOptions) :
    ((propose s now r summary commands opts).1.status = Status.pending)
    ∧ ((propose s now r summary commands opts).1.id.length = 4)
    ∧ (∀ c ∈ (propose s now r summary commands opts).1.id.data, c ∈ idChars)
    ∧ ((propose s now r summary commands opts).1.createdAt = now)
    ∧ ((propose s now r summary commands opts).1.expiresAt
        = (propose s now r summary commands opts).1.createdAt
          + (opts.expiryMs.getD DEFAULT_EXPIRY_MS))
    ∧ (DEFAULT_EXPIRY_MS = 2 * 60 * 60 * 1000)
    ∧ (loadApproval (propose s now r summary commands opts).2.store
        (propose s now r summary commands opts).1.id
        = some (propose s now r summary commands opts).1) := by
  refine ⟨rfl, generateId_length r, generateId_chars r, rfl, rfl, rfl, ?_⟩
  exact loadApproval_save_self s.store _

/-- C10: a single unparseable line in the audit log file makes
readAuditLog return the empty list, whatever the limit. -/
theorem readAuditLog_corrupt_line_empty (lines : List LogLine) (limit : Nat)
    (h : LogLine.corrupt ∈ lines) : readAuditLog lines limit = [] := by
  have hp : parseAll lines = none := by
    induction lines with
    | nil => simp at h
    | cons l rest ih =>
      cases l with
      | corrupt => rfl
      | ok e =>
        have hr : LogLine.corrupt ∈ rest := by
          rcases List.mem_cons.mp h with h1 | h2
          · exact absurd h1 (by simp)
          · exact h2
        simp [parseAll, ih hr]
  simp [readAuditLog, hp]

/-- C10 witness: a concrete two-line log with one corrupt line reads back
empty. -/
theorem readAuditLog_corrupt_line_empty_witness :
    readAuditLog [LogLine.ok sampleEntry, LogLine.corrupt] 100 = [] :=
  readAuditLog_corrupt_line_empty _ 100 (by decide)

/-- C1: executing an approved record whose every command fails still
persists status `executed` (the status union of the source has no
`failed` or `partial` value); only the `error` field records the
failures. The spec and the repository's own tests (dist/test.js,
"failed status when all commands fail") expect status `failed` here. -/
theorem execute_all_commands_fail_status_executed :
    ((execute c1run c1state 50 "AAAA").1.toOption.map Approval.status
      = some Status.executed)
    ∧ ((loadApproval (execute c1run c1state 50 "AAAA").2.store "AAAA").map
        Approval.status = some Status.executed)
    ∧ ((loadApproval (execute c1run c1state 50 "AAAA").2.store "AAAA").map
        Approval.error
        = some (some ("$ exit 1\nERROR: Command failed: exit status 1"))) := by
  decide

/-- C2 counterexample: at now = expiresAt ("at" the expiry time), approve
does NOT expire the record: the strict comparison `expiresAt < now` is
false, so the call succeeds and persists status `approved`, contradicting
the claim's "at or before the current time" trigger. -/
theorem approve_at_exact_expiry_succeeds :
    ((approve c2state 100 "AAAA" (some "u")).1 = Except.ok c2approved)
    ∧ ((loadApproval (approve c2state 100 "AAAA" (some "u")).2.store
        "AAAA").map Approval.status = some Status.approved) := by
  decide

/-- C2 (amended to the strict comparison the code performs): for every
well-formed store, approving a pending record whose expiresAt is strictly
before the current time flips it to expired, persists that change,
appends an `expired` audit entry, and fails with `Expired`; a subsequent
load of the same id sees status `expired`. -/
theorem approve_expired_flips_and_fails (s : State) (now : Nat) (id : String)
    (ab : Option String) (a : Approval) (wf : WFStore s.store)
    (h : loadApproval s.store (upperId id) = some a)
    (hp : a.status = Status.pending) (he : a.expiresAt < now) :
    ((approve s now id ab).1 = Except.error (Err.expired id))
    ∧ (loadApproval (approve s now id ab).2.store (upperId id)
        = some { a with status := Status.expired })
    ∧ ((approve s now id ab).2.audit = s.audit ++ [expiredEntry a now]) := by
  have heq := approve_expired s now id ab a h hp he
  have hkey : upperId id = a.id := loadApproval_key_eq_id wf h
  refine ⟨by rw [heq], ?_, by rw [heq]⟩
  rw [heq]
  show loadApproval (saveApproval s.store { a with status := Status.expired })
      (upperId id) = some { a with status := Status.expired }
  rw [hkey]
  exact loadApproval_save_self s.store { a with status := Status.expired }

/-- C2 witness: the amended theorem applied at a concrete expired record. -/
theorem approve_expired_flips_and_fails_witness :
    ((approve c2state 101 "AAAA" (some "u")).1
      = Except.error (Err.expired "AAAA"))
    ∧ (loadApproval (approve c2state 101 "AAAA" (some "u")).2.store
        (upperId "AAAA") = some { c2rec with status := Status.expired })
    ∧ ((approve c2state 101 "AAAA" (some "u")).2.audit
        = c2state.audit ++ [expiredEntry c2rec 101]) :=
  approve_expired_flips_and_fails c2state 101 "AAAA" (some "u") c2rec
    (by decide) (by decide) (by decide) (by decide)

/-- C3 counterexample: generateId never consults the store — with random
draws all hitting index 0 it returns "AAAA" even though "AAAA" is already
stored, and propose then overwrites the existing record (the old record
is no longer loadable afterwards). -/
theorem propose_collision_overwrites :
    ((propose c3state 5 (fun _ => 0) "new" ["echo 2"] {}).1.id = "AAAA")
    ∧ (loadApproval (propose c3state 5 (fun _ => 0) "new" ["echo 2"] {}).2.store
        "AAAA" ≠ some c3old)
    ∧ ((loadApproval
        (propose c3state 5 (fun _ => 0) "new" ["echo 2"] {}).2.store
        "AAAA").map Approval.summary = some "new") := by
  decide

/-- C3 (amended): propose draws a 4-character id from the alphabet with
no existence check against the store; it saves the new record under that
id, replacing whatever record was stored there, and leaves every other
id untouched. Distinctness of proposed ids therefore holds only when the
random draws happen not to collide. -/
theorem propose_saves_at_generated_id (s : State) (now : Nat) (r : Nat → Nat)
    (summary : String) (commands : List String) (opts : ProposeOptions) :
    ((propose s now r summary commands opts).1.id = generateId r)
    ∧ (loadApproval (propose s now r summary commands opts).2.store
        (generateId r) = some (propose s now r summary commands opts).1)
    ∧ (∀ k, k ≠ generateId r →
        lookupS (propose s now r summary commands opts).2.store k
          = lookupS s.store k) := by
  refine ⟨rfl, loadApproval_save_self s.store _, ?_⟩
  intro k hk
  exact lookupS_save_other s.store _ k hk

/-- C3 witness: the amended theorem applied at the collision input, where
the untouched-id part is checked at "BBBB". -/
theorem propose_saves_at_generated_id_witness :
    lookupS (propose c3state 5 (fun _ => 0) "new" ["echo 2"] {}).2.store
      "BBBB" = lookupS c3state.store "BBBB" :=
  (propose_saves_at_generated_id c3state 5 (fun _ => 0) "new"
    ["echo 2"] {}).2.2 "BBBB" (by decide)

/-- C4 counterexample: listApprovals persists the lazy pending → expired
rewrite (the store changes and the record reads back as expired) yet
appends no audit entry at all — the audit log is bitwise unchanged. -/
theorem list_lazy_expiry_no_audit :
    ((listState c4state 100 true).2.store ≠ c4state.store)
    ∧ ((loadApproval (listState c4state 100 true).2.store "AAAA").map
        Approval.status = some Status.expired)
    ∧ ((listState c4state 100 true).2.audit = c4state.audit) := by
  decide

/-! ### cleanExpired characterizations -/
theorem cleanExpired_removed (s : State) (now d : Nat) :
    (cleanExpired s now d).1
      = ((cleanTargets s.store now (now - d * dayMs)).map
          (fun a => a.id)).length := by
  simp only [cleanExpired]
  split <;> simp

theorem cleanExpired_store (s : State) (now d : Nat) :
    (cleanExpired s now d).2.store
      = ((cleanTargets s.store now (now - d * dayMs)).map
          (fun a => a.id)).foldl (fun st id => deleteApproval st id)
          (listApprovals s.store now true).2 := by
  simp only [cleanExpired]
  split <;> rfl

theorem cleanExpired_audit_pos (s : State) (now d : Nat)
    (h : 0 < (cleanExpired s now d).1) :
    (cleanExpired s now d).2.audit
      = s.audit ++ [cleanedEntry
          ((cleanTargets s.store now (now - d * dayMs)).map (fun a => a.id))
          now d] := by
  rw [cleanExpired_removed] at h
  simp only [cleanExpired]
  rw [if_pos h]

theorem cleanExpired_audit_zero (s : State) (now d : Nat)
    (h : (cleanExpired s now d).1 = 0) :
    (cleanExpired s now d).2.audit = s.audit := by
  rw [cleanExpired_removed] at h
  simp only [cleanExpired]
  rw [if_neg (by rw [h]; exact Nat.lt_irrefl 0)]

/-- C4 (amended): propose, approve (success and expired paths), deny and
execute each append exactly one audit entry for the mutation they
perform, and clean appends exactly one `cleaned` entry when it removed at
least one record — but the lazy pending → expired rewrite that a list
scan persists appends none (and a clean call that removes nothing leaves
the audit log untouched even when its scan rewrote records). -/
theorem mutating_ops_append_audit :
    (∀ s now r su cs o,
      ((propose s now r su cs o).2).audit.length = s.audit.length + 1)
    ∧ (∀ s now id ab a, (approve s now id ab).1 = Except.ok a →
        (approve s now id ab).2.audit.length = s.audit.length + 1)
    ∧ (∀ s now id ab, (approve s now id ab).1 = Except.error (Err.expired id) →
        (approve s now id ab).2.audit.length = s.audit.length + 1)
    ∧ (∀ s now id db a, (deny s now id db).1 = Except.ok a →
        (deny s now id db).2.audit.length = s.audit.length + 1)
    ∧ (∀ run s now id a, (execute run s now id).1 = Except.ok a →
        (execute run s now id).2.audit.length = s.audit.length + 1)
    ∧ (∀ s now d, 0 < (cleanExpired s now d).1 →
        (cleanExpired s now d).2.audit.length = s.audit.length + 1)
    ∧ (∀ s now d, (cleanExpired s now d).1 = 0 →
        (cleanExpired s now d).2.audit = s.audit)
    ∧ (∀ s now b, (listState s now b).2.audit = s.audit) := by
  refine ⟨?_, ?_, ?_, ?_, ?_, ?_, ?_, ?_⟩
  · intro s now r su cs o
    simp [propose]
  · intro s now id ab a h
    cases hl : loadApproval s.store (upperId id) with
    | none =>
      rw [approve_not_found s now id ab hl] at h
      exact absurd h (by simp)
    | some b =>
      by_cases hs : b.status = Status.pending
      · by_cases he : b.expiresAt < now
        · rw [approve_expired s now id ab b hl hs he] at h
          exact absurd h (by simp)
        · rw [approve_ok s now id ab b hl hs he]
          simp
      · rw [approve_not_pending s now id ab b hl hs] at h
        exact absurd h (by simp)
  · intro s now id ab h
    cases hl : loadApproval s.store (upperId id) with
    | none =>
      rw [approve_not_found s now id ab hl] at h
      simp at h
    | some b =>
      by_cases hs : b.status = Status.pending
      · by_cases he : b.expiresAt < now
        · rw [approve_expired s now id ab b hl hs he]
          simp
        · rw [approve_ok s now id ab b hl hs he] at h
          exact absurd h (by simp)
      · rw [approve_not_pending s now id ab b hl hs] at h
        simp at h
  · intro s now id db a h
    cases hl : loadApproval s.store (upperId id) with
    | none =>
      rw [deny_not_found s now id db hl] at h
      exact absurd h (by simp)
    | some b =>
      by_cases hs : b.status = Status.pending
      · rw [deny_ok s now id db b hl hs]
        simp
      · rw [deny_not_pending s now id db b hl hs] at h
        exact absurd h (by simp)
  · intro run s now id a h
    cases hl : loadApproval s.store (upperId id) with
    | none =>
      rw [execute_not_found run s now id hl] at h
      exact absurd h (by simp)
    | some b =>
      by_cases hs : b.status = Status.approved
      · rw [execute_ok run s now id b hl hs]
        simp
      · rw [execute_not_approved run s now id b hl hs] at h
        exact absurd h (by simp)
  · intro s now d h
    rw [cleanExpired_audit_pos s now d h]
    simp
  · intro s now d h
    exact cleanExpired_audit_zero s now d h
  · intro s now b
    rfl

/-- C4 witness: the approve-success conjunct of the amended theorem at a
concrete pending record. -/
theorem mutating_ops_append_audit_witness :
    (approve c2state 50 "AAAA" (some "u")).2.audit.length
      = c2state.audit.length + 1 :=
  mutating_ops_append_audit.2.1 c2state 50 "AAAA" (some "u")
    { c2rec with status := Status.approved, approvedAt := some 50, approvedBy := some "u" }
    (by decide)

/-- C8: approve or deny on a record whose status is not pending, and
execute on a record whose status is not approved, fail with an
InvalidTransition-classified error whose message names the record's
current status, and return the state completely unchanged (no record
write, no audit append). -/
theorem invalid_transition_fails_without_side_effects :
    (∀ s now id ab a, loadApproval s.store (upperId id) = some a →
      a.status ≠ Status.pending →
      approve s now id ab = (Except.error (Err.notPending id a.status), s)
      ∧ (Err.notPending id a.status).isInvalidTransition = true
      ∧ ∃ x y, (Err.notPending id a.status).message
          = x ++ statusName a.status ++ y)
    ∧ (∀ s now id db a, loadApproval s.store (upperId id) = some a →
      a.status ≠ Status.pending →
      deny s now id db = (Except.error (Err.notPending id a.status), s)
      ∧ (Err.notPending id a.status).isInvalidTransition = true
      ∧ ∃ x y, (Err.notPending id a.status).message
          = x ++ statusName a.status ++ y)
    ∧ (∀ run s now id a, loadApproval s.store (upperId id) = some a →
      a.status ≠ Status.approved →
      execute run s now id = (Except.error (Err.notApproved id a.status), s)
      ∧ (Err.notApproved id a.status).isInvalidTransition = true
      ∧ ∃ x y, (Err.notApproved id a.status).message
          = x ++ statusName a.status ++ y) := by
  refine ⟨?_, ?_, ?_⟩
  · intro s now id ab a h hs
    exact ⟨approve_not_pending s now id ab a h hs, rfl,
      ⟨"Approval " ++ id ++ " is ", ", not pending", rfl⟩⟩
  · intro s now id db a h hs
    exact ⟨deny_not_pending s now id db a h hs, rfl,
      ⟨"Approval " ++ id ++ " is ", ", not pending", rfl⟩⟩
  · intro run s now id a h hs
    exact ⟨execute_not_approved run s now id a h hs, rfl,
      ⟨"Approval " ++ id ++ " is ", ", must be approved first", rfl⟩⟩

/-- C8 witness: executing a denied record fails with the
status-naming InvalidTransition error and changes nothing. -/
theorem invalid_transition_fails_without_side_effects_witness :
    execute c1run c8state 50 "AAAA"
      = (Except.error (Err.notApproved "AAAA" Status.denied), c8state)
    ∧ (Err.notApproved "AAAA" Status.denied).isInvalidTransition = true
    ∧ ∃ x y, (Err.notApproved "AAAA" Status.denied).message
        = x ++ statusName Status.denied ++ y :=
  invalid_transition_fails_without_side_effects.2.2 c1run c8state 50 "AAAA"
    c8rec (by decide) (by decide)

theorem batchLoop_length (run : String → Except String String) (now : Nat)
    (actor : Option String) :
    ∀ (ids : List String) (s : State),
      (batchLoop run now actor ids s).1.length
        + (batchLoop run now actor ids s).2.1.length = ids.length := by
  intro ids
  induction ids with
  | nil => intro s; rfl
  | cons id rest ih =>
    intro s
    cases hx : approveAndExecute run s now id actor with
    | mk outcome s' =>
      cases outcome with
      | ok a =>
        simp only [batchLoop, hx]
        have := ih s'
        cases hb : batchLoop run now actor rest s' with
        | mk succ p =>
          rw [hb] at this
          simp at this ⊢
          omega
      | error e =>
        simp only [batchLoop, hx]
        have := ih s'
        cases hb : batchLoop run now actor rest s' with
        | mk succ p =>
          rw [hb] at this
          simp at this ⊢
          omega

/-- C7: batch processes every id exactly once — each id contributes
either one collected success or one caught {id, error} pair, so one id's
failure never prevents the remaining ids from being processed; "all"
expands, at call time, to the ids of the pending records in list order. -/
theorem batch_isolates_per_id_failures :
    (∀ run s now ids actor,
      (batchApprove run s now (BatchIds.explicit ids) actor).1.length
        + (batchApprove run s now (BatchIds.explicit ids) actor).2.1.length
        = ids.length)
    ∧ (∀ run s now actor,
      batchApprove run s now BatchIds.all actor
        = batchApprove run (listState s now false).2 now
            (BatchIds.explicit ((listState s now false).1.map (fun a => a.id)))
            actor)
    ∧ (∀ run now actor id rest s a s',
      approveAndExecute run s now id actor = (Except.ok a, s') →
      batchLoop run now actor (id :: rest) s
        = (a :: (batchLoop run now actor rest s').1,
           (batchLoop run now actor rest s').2.1,
           (batchLoop run now actor rest s').2.2))
    ∧ (∀ run now actor id rest s e s',
      approveAndExecute run s now id actor = (Except.error e, s') →
      batchLoop run now actor (id :: rest) s
        = ((batchLoop run now actor rest s').1,
           (id, e.message) :: (batchLoop run now actor rest s').2.1,
           (batchLoop run now actor rest s').2.2)) := by
  refine ⟨?_, ?_, ?_, ?_⟩
  · intro run s now ids actor
    exact batchLoop_length run now actor ids s
  · intro run s now actor
    rfl
  · intro run now actor id rest s a s' h
    simp only [batchLoop, h]
  · intro run now actor id rest s e s' h
    simp only [batchLoop, h]

/-- C7 witness: a batch whose first id is missing catches that failure as
an {id, error} pair and still processes the remaining id. -/
theorem batch_isolates_per_id_failures_witness :
    batchLoop c1run 50 (some "u") ["ZZZZ", "CCCC"] c7state
      = ((batchLoop c1run 50 (some "u") ["CCCC"] c7state).1,
         ("ZZZZ", (Err.notFound "ZZZZ").message)
           :: (batchLoop c1run 50 (some "u") ["CCCC"] c7state).2.1,
         (batchLoop c1run 50 (some "u") ["CCCC"] c7state).2.2) :=
  batch_isolates_per_id_failures.2.2.2 c1run 50 (some "u") "ZZZZ" ["CCCC"]
    c7state (Err.notFound "ZZZZ") c7state (by decide)

theorem createdDesc_trans : ∀ x y z : Approval, createdDesc x y = true →
    createdDesc y z = true → createdDesc x z = true := by
  intro x y z h1 h2
  simp [createdDesc] at h1 h2 ⊢
  omega

theorem createdDesc_total : ∀ x y : Approval,
    (createdDesc x y || createdDesc y x) = true := by
  intro x y
  simp [createdDesc]
  omega

/-- C5: list first persists the pending → expired rewrite for every
stored record whose expiry has passed (before deciding inclusion), then
returns only pending records unless includeAll is set — every returned
record is a record on disk after the rewrite — and sorts the result by
createdAt descending, newest first. -/
theorem listApprovals_semantics (s : Store) (now : Nat) (includeAll : Bool) :
    (∀ k a, lookupS s k = some (Rec.ok a) → a.status = Status.pending →
      a.expiresAt < now →
      lookupS (listApprovals s now includeAll).2 k
        = some (Rec.ok { a with status := Status.expired }))
    ∧ (includeAll = false → ∀ a ∈ (listApprovals s now includeAll).1,
        a.status = Status.pending)
    ∧ (∀ a ∈ (listApprovals s now includeAll).1,
        ∃ k, (k, Rec.ok a) ∈ (listApprovals s now includeAll).2)
    ∧ (includeAll = true → ∀ k a,
        lookupS (listApprovals s now includeAll).2 k = some (Rec.ok a) →
        a ∈ (listApprovals s now includeAll).1)
    ∧ ((listApprovals s now includeAll).1).Pairwise
        (fun x y => y.createdAt ≤ x.createdAt) := by
  refine ⟨?_, ?_, ?_, ?_, ?_⟩
  · intro k a hka hp he
    show lookupS (s.map (fun p => (p.1, lazyExpireRec now p.2))) k = _
    rw [lookupS_map_expire, hka]
    simp [lazyExpireRec, lazyExpire, hp, he]
  · intro hb a ha
    subst hb
    have ha' : a ∈ (s.map (fun p => (p.1, lazyExpireRec now p.2))).filterMap
        (fun p =>
          match p.2 with
          | Rec.ok b => if false || b.status = Status.pending
              then some b else none
          | Rec.corrupt => none) := by
      simpa [listApprovals, List.mem_mergeSort] using ha
    rcases List.mem_filterMap.mp ha' with ⟨p, _, hpe⟩
    obtain ⟨k, r⟩ := p
    cases r with
    | corrupt => simp at hpe
    | ok b =>
      simp at hpe
      rcases hpe with ⟨hbs, hba⟩
      rw [← hba]
      exact hbs
  · intro a ha
    have ha' : a ∈ (s.map (fun p => (p.1, lazyExpireRec now p.2))).filterMap
        (fun p =>
          match p.2 with
          | Rec.ok b => if includeAll || b.status = Status.pending
              then some b else none
          | Rec.corrupt => none) := by
      simpa [listApprovals, List.mem_mergeSort] using ha
    rcases List.mem_filterMap.mp ha' with ⟨p, hp, hpe⟩
    obtain ⟨k, r⟩ := p
    cases r with
    | corrupt => simp at hpe
    | ok b =>
      have hba : b = a := by
        simp at hpe
        rcases includeAll with _ | _
        · simp at hpe
          exact hpe.2
        · simp at hpe
          exact hpe
      exact ⟨k, by rw [← hba]; exact hp⟩
  · intro hb k a hk
    subst hb
    have hm : (k, Rec.ok a) ∈ (listApprovals s now true).2 := lookupS_mem hk
    have hm' : (k, Rec.ok a) ∈ s.map (fun p => (p.1, lazyExpireRec now p.2)) := hm
    show a ∈ ((s.map (fun p => (p.1, lazyExpireRec now p.2))).filterMap
      (fun p =>
        match p.2 with
        | Rec.ok b => if true || b.status = Status.pending
            then some b else none
        | Rec.corrupt => none)).mergeSort createdDesc
    rw [List.mem_mergeSort]
    exact List.mem_filterMap.mpr ⟨(k, Rec.ok a), hm', by simp⟩
  · have hs := List.sorted_mergeSort createdDesc_trans createdDesc_total
      ((s.map (fun p => (p.1, lazyExpireRec now p.2))).filterMap
        (fun p =>
          match p.2 with
          | Rec.ok b => if includeAll || b.status = Status.pending
              then some b else none
          | Rec.corrupt => none))
    have : (listApprovals s now includeAll).1
        = ((s.map (fun p => (p.1, lazyExpireRec now p.2))).filterMap
          (fun p =>
            match p.2 with
            | Rec.ok b => if includeAll || b.status = Status.pending
                then some b else none
            | Rec.corrupt => none)).mergeSort createdDesc := rfl
    rw [this]
    exact hs.imp (fun h => by simpa [createdDesc] using h)

/-- C5 witness: the lazy-rewrite conjunct at a concrete stale pending
record, and the only-pending conjunct at the same store. -/
theorem listApprovals_semantics_witness :
    lookupS (listApprovals c4state.store 100 false).2 "AAAA"
      = some (Rec.ok { c4rec with status := Status.expired }) :=
  (listApprovals_semantics c4state.store 100 false).1 "AAAA" c4rec
    (by decide) (by decide) (by decide)

/-- C6 counterexample: a record that is pending on disk, whose TTL has
long expired and whose createdAt is older than the cutoff, IS deleted by
cleanExpired (the scan's lazy expiry first rewrites it to expired, and
the deletion loop then removes it), so clean does not spare every record
whose status was pending regardless of age. Store: one pending record
created at 0 with expiresAt 10; now is 10 days (in ms); cutoff 7 days. -/
theorem clean_deletes_stale_pending :
    ((cleanExpired c4state 864000000 7).1 = 1)
    ∧ (lookupS (cleanExpired c4state 864000000 7).2.store "AAAA" = none) := by
  constructor
  · simp +decide [cleanExpired, cleanTargets, listApprovals, List.mergeSort,
      lazyExpireRec, lazyExpire, c4state, c4rec, dayMs, createdDesc]
  · simp +decide [cleanExpired, cleanTargets, listApprovals, List.mergeSort,
      lazyExpireRec, lazyExpire, c4state, c4rec, dayMs, createdDesc,
      deleteApproval, lookupS]

theorem mem_list_all_entry {s : Store} {now : Nat} {b : Approval}
    (hb : b ∈ (listApprovals s now true).1) :
    ∃ k, (k, Rec.ok b) ∈ s.map (fun p => (p.1, lazyExpireRec now p.2)) := by
  have hb' : b ∈ (s.map (fun p => (p.1, lazyExpireRec now p.2))).filterMap
      (fun p =>
        match p.2 with
        | Rec.ok c => if true || c.status = Status.pending
            then some c else none
        | Rec.corrupt => none) := by
    simpa [listApprovals, List.mem_mergeSort] using hb
  rcases List.mem_filterMap.mp hb' with ⟨p, hp, hpe⟩
  obtain ⟨k, r⟩ := p
  cases r with
  | corrupt => simp at hpe
  | ok c =>
    simp at hpe
    exact ⟨k, by rw [← hpe]; exact hp⟩

theorem entry_mem_list_all {s : Store} {now : Nat} {k : String} {a : Approval}
    (h : (k, Rec.ok a) ∈ s.map (fun p => (p.1, lazyExpireRec now p.2))) :
    a ∈ (listApprovals s now true).1 := by
  show a ∈ ((s.map (fun p => (p.1, lazyExpireRec now p.2))).filterMap
    (fun p =>
      match p.2 with
      | Rec.ok c => if true || c.status = Status.pending
          then some c else none
      | Rec.corrupt => none)).mergeSort createdDesc
  rw [List.mem_mergeSort]
  exact List.mem_filterMap.mpr ⟨(k, Rec.ok a), h, by simp⟩

/-- C6 (amended): clean never deletes a record that is pending and whose
TTL has not yet expired; it deletes every record that the scan sees as
non-pending (including stale pending records first rewritten to expired
by the scan's lazy expiry) and whose createdAt is older than the cutoff;
it appends exactly one `cleaned` audit entry — listing all removed ids
and the count — when at least one record was removed and none when zero
were; and it returns the number of records removed. -/
theorem clean_semantics (s : State) (now d : Nat) (wf : WFStore s.store) :
    (∀ k a, lookupS s.store k = some (Rec.ok a) →
      a.status = Status.pending → ¬ a.expiresAt < now →
      lookupS (cleanExpired s now d).2.store k = some (Rec.ok a))
    ∧ (∀ k a, lookupS s.store k = some (Rec.ok a) →
      (lazyExpire now a).status ≠ Status.pending →
      a.createdAt < now - d * dayMs →
      lookupS (cleanExpired s now d).2.store k = none)
    ∧ (0 < (cleanExpired s now d).1 →
      (cleanExpired s now d).2.audit
        = s.audit ++ [cleanedEntry
            ((cleanTargets s.store now (now - d * dayMs)).map (fun a => a.id))
            now d])
    ∧ ((cleanExpired s now d).1 = 0 →
      (cleanExpired s now d).2.audit = s.audit)
    ∧ ((cleanExpired s now d).1
        = (cleanTargets s.store now (now - d * dayMs)).length) := by
  have wf1 : WFStore (s.store.map (fun p => (p.1, lazyExpireRec now p.2))) :=
    WFStore_map_expire wf now
  refine ⟨?_, ?_, cleanExpired_audit_pos s now d, cleanExpired_audit_zero s now d, ?_⟩
  · intro k a hka hp he
    have hkid : k = a.id := by
      have hm := lookupS_mem hka
      exact wf.key_eq hm
    have hid : lazyExpire now a = a := by
      unfold lazyExpire
      rw [if_neg]
      intro hc
      exact he hc.2
    have hk1 : lookupS (s.store.map (fun p => (p.1, lazyExpireRec now p.2))) k
        = some (Rec.ok a) := by
      rw [lookupS_map_expire, hka]
      simp [lazyExpireRec, hid]
    rw [cleanExpired_store]
    have hnotin : k ∉ (cleanTargets s.store now (now - d * dayMs)).map
        (fun a => a.id) := by
      intro hk
      rcases List.mem_map.mp hk with ⟨b, hbt, hbid⟩
      have hbl := List.mem_filter.mp hbt
      have hbp : b.status ≠ Status.pending ∧ b.createdAt < now - d * dayMs := by
        have := hbl.2
        simpa using this
      rcases mem_list_all_entry hbl.1 with ⟨k2, hk2⟩
      have hma : (k, Rec.ok a)
          ∈ s.store.map (fun p => (p.1, lazyExpireRec now p.2)) :=
        lookupS_mem hk1
      have hab : a = b :=
        WFStore_entry_unique wf1 hma hk2 (by rw [hbid, hkid])
      exact hbp.1 (by rw [← hab]; exact hp)
    rw [lookupS_foldl_delete_not_mem _ _ _ hnotin]
    exact hk1
  · intro k a hka hnp hc
    have hkid : k = a.id := by
      have hm := lookupS_mem hka
      exact wf.key_eq hm
    have hk1 : lookupS (s.store.map (fun p => (p.1, lazyExpireRec now p.2))) k
        = some (Rec.ok (lazyExpire now a)) := by
      rw [lookupS_map_expire, hka]
      simp [lazyExpireRec]
    have hma : (k, Rec.ok (lazyExpire now a))
        ∈ s.store.map (fun p => (p.1, lazyExpireRec now p.2)) :=
      lookupS_mem hk1
    have hal : (lazyExpire now a) ∈ (listApprovals s.store now true).1 :=
      entry_mem_list_all hma
    have hat : (lazyExpire now a)
        ∈ cleanTargets s.store now (now - d * dayMs) := by
      refine List.mem_filter.mpr ⟨hal, ?_⟩
      simp [hnp, lazyExpire_createdAt, hc]
    have hin : k ∈ (cleanTargets s.store now (now - d * dayMs)).map
        (fun a => a.id) := by
      refine List.mem_map.mpr ⟨lazyExpire now a, hat, ?_⟩
      rw [lazyExpire_id, ← hkid]
    rw [cleanExpired_store]
    exact lookupS_foldl_delete_mem _ _ _ hin
  · rw [cleanExpired_removed]
    simp

/-- C6 witness: the amended theorem's survival conjunct at a concrete
store holding one genuinely pending (unexpired) but very old record:
clean leaves it in place. -/
theorem clean_semantics_witness :
    lookupS (cleanExpired c6state 864000000 7).2.store "AAAA"
      = some (Rec.ok c6rec) :=
  (clean_semantics c6state 864000000 7 (by decide)).1 "AAAA" c6rec
    (by decide) (by decide) (by decide)
